import Mathlib

/-!
Shallow embedding of the bevy-intl translation resolution core (src/lib.rs).

Translation tables are modelled as association lists (the Rust `HashMap`s
have unique keys; `List.lookup` returns the first binding, which agrees with
`HashMap::get` on such lists).  The placeholder regex `\{\{(\w*)\}\}` is
modelled by an explicit left-to-right scanner (`goSplit`) implementing the
regex engine's leftmost-match, greedy word-run semantics; `\w` is modelled as
ASCII alphanumeric or underscore.  Brace characters are written with their
escape codes `\x7b` and `\x7d` throughout.
-/

namespace BevyIntl

/-- `SectionValue` from src/lib.rs: a translation value is plain text or a
nested map of variant keys to strings. -/
inductive SectionValue where
  | Text : String → SectionValue
  | Map : List (String × String) → SectionValue
deriving DecidableEq

/-- `SectionMap` from src/lib.rs: keys to values within one file. -/
abbrev SectionMap := List (String × SectionValue)

/-- `FileMap` from src/lib.rs: file names to section maps. -/
abbrev FileMap := List (String × SectionMap)

/-- `LangMap` from src/lib.rs: language codes to file maps. -/
abbrev LangMap := List (String × FileMap)

/-- `Translations` from src/lib.rs. -/
structure Translations where
  langs : LangMap
deriving DecidableEq

/-- The `I18n` resource from src/lib.rs (loader fields aside). -/
structure I18n where
  translations : Translations
  current_lang : String
  locale_folders_list : List String
  fallback_lang : String
deriving DecidableEq

/-- The `I18nPartial` view from src/lib.rs: the current-language section and
the fallback-language section of one translation file. -/
structure I18nPartial where
  file_traductions : SectionMap
  fallback_traduction : SectionMap
deriving DecidableEq

/-- A `\w` character of the placeholder regex, modelled on ASCII: a letter,
a digit or an underscore. -/
def isWordChar (c : Char) : Bool := c.isAlphanum || c = '_'

/-- Scanner state for the regex `\{\{(\w*)\}\}`:
`normal` = not inside a candidate match; `brace` = consumed one `\x7b`;
`word w` = consumed `\x7b\x7b` and then the word chars `w` (reversed);
`close w` = consumed `\x7b\x7b`, the word chars `w`, and one `\x7d`. -/
inductive SplitSt where
  | normal : SplitSt
  | brace : SplitSt
  | word : List Char → SplitSt
  | close : List Char → SplitSt
deriving DecidableEq

/-- The characters a scanner state holds pending, to be flushed (in reverse
accumulation order, like the literal accumulator) when the candidate match
fails or input ends. -/
def flushAcc : SplitSt → List Char → List Char
  | SplitSt.normal, lit => lit
  | SplitSt.brace, lit => '\x7b' :: lit
  | SplitSt.word w, lit => w ++ '\x7b' :: '\x7b' :: lit
  | SplitSt.close w, lit => '\x7d' :: w ++ '\x7b' :: '\x7b' :: lit

/-- One-pass scanner realising `ARG_RE.split`: `lit` accumulates the current
literal part in reverse; a completed `\x7b\x7b\w*\x7d\x7d` match emits the
part.  Failed candidates are flushed back into the literal, restarting the
scan at the failing character (with the one-brace slide for a run of braces,
matching the regex engine's restart at the next position). -/
def goSplit : List Char → SplitSt → List Char → List String
  | [], st, lit => [(flushAcc st lit).reverse.asString]
  | c :: cs, SplitSt.normal, lit =>
      if c = '\x7b' then goSplit cs SplitSt.brace lit
      else goSplit cs SplitSt.normal (c :: lit)
  | c :: cs, SplitSt.brace, lit =>
      if c = '\x7b' then goSplit cs (SplitSt.word []) lit
      else goSplit cs SplitSt.normal (c :: '\x7b' :: lit)
  | c :: cs, SplitSt.word w, lit =>
      if c = '\x7d' then goSplit cs (SplitSt.close w) lit
      else if isWordChar c then goSplit cs (SplitSt.word (c :: w)) lit
      else if c = '\x7b' then
        match w with
        | [] => goSplit cs (SplitSt.word []) ('\x7b' :: lit)
        | _ :: _ => goSplit cs SplitSt.brace (w ++ '\x7b' :: '\x7b' :: lit)
      else goSplit cs SplitSt.normal (c :: (w ++ '\x7b' :: '\x7b' :: lit))
  | c :: cs, SplitSt.close w, lit =>
      if c = '\x7d' then lit.reverse.asString :: goSplit cs SplitSt.normal []
      else if c = '\x7b' then
        goSplit cs SplitSt.brace ('\x7d' :: w ++ '\x7b' :: '\x7b' :: lit)
      else goSplit cs SplitSt.normal (c :: '\x7d' :: w ++ '\x7b' :: '\x7b' :: lit)

/-- `ARG_RE.split(template)` from src/lib.rs line 838: the literal segments
of the template between placeholder occurrences, in order. -/
def argSplit (template : String) : List String :=
  goSplit template.data SplitSt.normal []

/-- The interleaving loop of `replace_placeholders` (src/lib.rs 841-846):
push each part in order, and after the i-th part push the i-th argument when
one exists. -/
def joinParts : List String → List String → String
  | [], _ => ""
  | p :: ps, [] => p ++ joinParts ps []
  | p :: ps, a :: rest => p ++ a ++ joinParts ps rest

/-- The text lookup of `get_text_value` against a single table: the value
under `key` when it is `Text`, and `none` otherwise (a `Map` is a miss). -/
def textValueIn (m : SectionMap) (key : String) : Option String :=
  (m.lookup key).bind fun v =>
    match v with
    | SectionValue.Text s => some s
    | SectionValue.Map _ => none

/-- The variant lookup of `get_nested_value` against a single table: the
string under `nested_key` inside the `Map` under `key`, and `none` when
`key` is absent, holds `Text`, or its map lacks `nested_key`. -/
def variantIn (m : SectionMap) (key nested_key : String) : Option String :=
  (m.lookup key).bind fun v =>
    match v with
    | SectionValue.Text _ => none
    | SectionValue.Map mm => mm.lookup nested_key

/-- `I18nPartial::get_text_value` (src/lib.rs 797-812): text lookup in the
current table, falling back to the fallback table. -/
def I18nPartial.get_text_value (p : I18nPartial) (key : String) : Option String :=
  (textValueIn p.file_traductions key).orElse fun _ =>
    textValueIn p.fallback_traduction key

/-- `I18nPartial::get_nested_value` (src/lib.rs 814-835): variant lookup in
the current table, falling back to the fallback table. -/
def I18nPartial.get_nested_value (p : I18nPartial) (key nested_key : String) : Option String :=
  (variantIn p.file_traductions key nested_key).orElse fun _ =>
    variantIn p.fallback_traduction key nested_key

/-- `I18nPartial::t` (src/lib.rs 658-660). -/
def I18nPartial.t (p : I18nPartial) (key : String) : String :=
  (p.get_text_value key).getD "Missing translation"

/-- `I18nPartial::replace_placeholders` (src/lib.rs 837-849): split the
template by the placeholder regex and interleave the arguments. -/
def I18nPartial.replace_placeholders (_p : I18nPartial) (template : String)
    (args : List String) : String :=
  joinParts (argSplit template) args

/-- `I18nPartial::t_with_arg` (src/lib.rs 682-685). -/
def I18nPartial.t_with_arg (p : I18nPartial) (key : String) (args : List String) : String :=
  p.replace_placeholders (p.t key) args

/-- The `plural_key` match of `t_with_plural` (src/lib.rs 720-726). -/
def plural_key : Nat → String
  | 0 => "zero"
  | 1 => "one"
  | 2 => "two"
  | n + 3 => if n + 3 ≤ 10 then "few" else "many"

/-- `I18nPartial::t_with_plural` (src/lib.rs 710-744): the four-step plural
cascade, each hit passed through placeholder substitution with the count's
numeral as the single argument. -/
def I18nPartial.t_with_plural (p : I18nPartial) (key : String) (count : Nat) : String :=
  let count_str := Nat.repr count
  match p.get_nested_value key count_str with
  | some template => p.replace_placeholders template [count_str]
  | none =>
    match p.get_nested_value key (plural_key count) with
    | some template => p.replace_placeholders template [count_str]
    | none =>
      match p.get_nested_value key (if count = 1 then "one" else "other") with
      | some template => p.replace_placeholders template [count_str]
      | none =>
        match p.get_nested_value key "many" with
        | some template => p.replace_placeholders template [count_str]
        | none => "Missing plural translation"

/-- `I18nPartial::t_with_gender` (src/lib.rs 764-768). -/
def I18nPartial.t_with_gender (p : I18nPartial) (key gender : String) : String :=
  (p.get_nested_value key gender).getD "Missing gender translation"

/-- `I18nPartial::t_with_gender_and_arg` (src/lib.rs 791-794). -/
def I18nPartial.t_with_gender_and_arg (p : I18nPartial) (key gender : String)
    (args : List String) : String :=
  p.replace_placeholders (p.t_with_gender key gender) args

/-- The synthetic `error_map` of `I18n::translation` (src/lib.rs 540-547). -/
def error_map : SectionMap :=
  [("error", SectionValue.Text "Translation not found")]

/-- `I18n::translation` (src/lib.rs 539-567): two independent lookups of the
file under the current and the fallback language, each replaced by the
synthetic error table when absent. -/
def I18n.translation (i : I18n) (translation_file : String) : I18nPartial :=
  let current_file :=
    ((i.translations.langs.lookup i.current_lang).bind fun lang =>
      lang.lookup translation_file).getD error_map
  let fallback_file :=
    ((i.translations.langs.lookup i.fallback_lang).bind fun lang =>
      lang.lookup translation_file).getD error_map
  { file_traductions := current_file, fallback_traduction := fallback_file }

/-- `I18n::set_lang` (src/lib.rs 585-591): validate against the available
languages; on failure a no-op, on success replace the current language. -/
def I18n.set_lang (i : I18n) (locale : String) : I18n :=
  if i.locale_folders_list.contains locale then
    { i with current_lang := locale }
  else i

/-- `I18n::get_lang` (src/lib.rs 609-611). -/
def I18n.get_lang (i : I18n) : String := i.current_lang

/-- A resolver view over two empty tables, used to exercise the pure string
helper `replace_placeholders` (whose `self` is unused, as in the source). -/
def emptyView : I18nPartial := { file_traductions := [], fallback_traduction := [] }

/-- The `en.ui` table of the spec's end-to-end scenario. -/
def enUi : SectionMap :=
  [("greeting", SectionValue.Text "Hello \x7b\x7bname\x7d\x7d"),
   ("items", SectionValue.Map [("one", "One item"), ("many", "\x7b\x7b\x7d\x7d items")])]

/-- The store of the spec's end-to-end scenario: `en.ui` loaded, `fr` present
with no `ui` file, current language `fr`, fallback `en`. -/
def demoI18n : I18n :=
  { translations := ⟨[("en", [("ui", enUi)]), ("fr", [])]⟩,
    current_lang := "fr",
    locale_folders_list := ["en", "fr"],
    fallback_lang := "en" }

/-- A small view with one `Text` entry on each side. -/
def textView : I18nPartial :=
  { file_traductions := [("greet", SectionValue.Text "Hello")],
    fallback_traduction := [("bye", SectionValue.Text "Bye")] }

/-- A view whose variants hold both the exact-count key `"5"` and the
category key `"many"`. -/
def pluralView : I18nPartial :=
  { file_traductions :=
      [("apples", SectionValue.Map [("5", "cinq pommes"), ("many", "beaucoup")])],
    fallback_traduction := [] }

/-- A view with only category variant keys. -/
def fewView : I18nPartial :=
  { file_traductions := [("items", SectionValue.Map [("few", "quelques")])],
    fallback_traduction := [] }

/-- A view with a gender variant. -/
def genderView : I18nPartial :=
  { file_traductions := [("title", SectionValue.Map [("female", "Mme")])],
    fallback_traduction := [] }

/-! ## Helper lemmas -/

theorem join_cons (p : String) (ps : List String) :
    String.join (p :: ps) = p ++ String.join ps := by
  apply String.ext
  simp [String.join_eq, String.data_append]

theorem joinParts_take_eq (ps args : List String) :
    joinParts ps args = joinParts ps (args.take ps.length) := by
  induction ps generalizing args with
  | nil => cases args <;> rfl
  | cons p ps ih =>
    cases args with
    | nil => rfl
    | cons a rest =>
      show p ++ a ++ joinParts ps rest = p ++ a ++ joinParts ps (rest.take ps.length)
      rw [ih rest]

theorem joinParts_nil_eq (ps : List String) : joinParts ps [] = String.join ps := by
  induction ps with
  | nil => rfl
  | cons p ps ih => rw [joinParts, ih, join_cons]

theorem joinParts_extra_arg (ps args : List String) (h1 : ps ≠ [])
    (h2 : ps.length ≤ args.length) :
    joinParts ps args =
      joinParts ps (args.take (ps.length - 1)) ++ args.getD (ps.length - 1) "" := by
  induction ps generalizing args with
  | nil => exact absurd rfl h1
  | cons p ps ih =>
    cases args with
    | nil => simp at h2
    | cons a rest =>
      cases ps with
      | nil =>
        show p ++ a ++ "" = (p ++ "") ++ a
        rw [String.append_empty, String.append_empty]
      | cons q qs =>
        have h2' : (q :: qs).length ≤ rest.length := by
          simpa using Nat.le_of_succ_le_succ h2
        show p ++ a ++ joinParts (q :: qs) rest =
          joinParts (p :: q :: qs) ((a :: rest).take (qs.length + 1)) ++
            (a :: rest).getD (qs.length + 1) ""
        rw [List.take_succ_cons, List.getD_cons_succ]
        show p ++ a ++ joinParts (q :: qs) rest =
          (p ++ a ++ joinParts (q :: qs) (rest.take qs.length)) ++ rest.getD qs.length ""
        rw [ih rest (List.cons_ne_nil q qs) h2']
        simp [String.append_assoc]

theorem goSplit_ne_nil (l : List Char) (st : SplitSt) (lit : List Char) :
    goSplit l st lit ≠ [] := by
  induction l generalizing st lit with
  | nil => simp [goSplit]
  | cons c cs ih =>
    cases st with
    | normal =>
      simp only [goSplit]
      split
      · exact ih _ _
      · exact ih _ _
    | brace =>
      simp only [goSplit]
      split
      · exact ih _ _
      · exact ih _ _
    | word w =>
      simp only [goSplit]
      split
      · exact ih _ _
      split
      · exact ih _ _
      split
      · cases w with
        | nil => exact ih _ _
        | cons x xs => exact ih _ _
      · exact ih _ _
    | close w =>
      simp only [goSplit]
      split
      · exact List.cons_ne_nil _ _
      split
      · exact ih _ _
      · exact ih _ _

theorem goSplit_singleton (l : List Char) (st : SplitSt) (lit : List Char) (s : String)
    (h : goSplit l st lit = [s]) : s.data = (flushAcc st lit).reverse ++ l := by
  induction l generalizing st lit with
  | nil =>
    simp only [goSplit, List.cons.injEq, and_true] at h
    rw [← h]
    simp [List.asString]
  | cons c cs ih =>
    cases st with
    | normal =>
      simp only [goSplit] at h
      split at h
      · rename_i hc
        have := ih _ _ h
        rw [this, hc]
        simp [flushAcc, List.append_assoc]
      · have := ih _ _ h
        rw [this]
        simp [flushAcc, List.append_assoc]
    | brace =>
      simp only [goSplit] at h
      split at h
      · rename_i hc
        have := ih _ _ h
        rw [this, hc]
        simp [flushAcc, List.append_assoc]
      · have := ih _ _ h
        rw [this]
        simp [flushAcc, List.append_assoc]
    | word w =>
      simp only [goSplit] at h
      split at h
      · rename_i hc
        have := ih _ _ h
        rw [this, hc]
        simp [flushAcc, List.append_assoc]
      split at h
      · have := ih _ _ h
        rw [this]
        simp [flushAcc, List.append_assoc]
      split at h
      · rename_i hc
        cases w with
        | nil =>
          have := ih _ _ h
          rw [this, hc]
          simp [flushAcc, List.append_assoc]
        | cons x xs =>
          have := ih _ _ h
          rw [this, hc]
          simp [flushAcc, List.append_assoc]
      · have := ih _ _ h
        rw [this]
        simp [flushAcc, List.append_assoc]
    | close w =>
      simp only [goSplit] at h
      split at h
      · exfalso
        have hne := goSplit_ne_nil cs SplitSt.normal []
        cases hgs : goSplit cs SplitSt.normal [] with
        | nil => exact hne hgs
        | cons y ys =>
          rw [hgs] at h
          exact List.cons_ne_nil y ys (List.tail_eq_of_cons_eq h)
      split at h
      · rename_i hc
        have := ih _ _ h
        rw [this, hc]
        simp [flushAcc, List.append_assoc]
      · have := ih _ _ h
        rw [this]
        simp [flushAcc, List.append_assoc]

theorem argSplit_ne_nil (template : String) : argSplit template ≠ [] :=
  goSplit_ne_nil template.data SplitSt.normal []

theorem argSplit_singleton (template s : String) (h : argSplit template = [s]) :
    s = template := by
  have := goSplit_singleton template.data SplitSt.normal [] s h
  simp only [flushAcc, List.reverse_nil, List.nil_append] at this
  exact String.ext this

theorem plural_key_few {c : Nat} (h3 : 3 ≤ c) (h10 : c ≤ 10) : plural_key c = "few" := by
  obtain ⟨n, rfl⟩ : ∃ n, c = n + 3 := ⟨c - 3, by omega⟩
  rw [plural_key, if_pos h10]

theorem plural_key_many {c : Nat} (h : 11 ≤ c) : plural_key c = "many" := by
  obtain ⟨n, rfl⟩ : ∃ n, c = n + 3 := ⟨c - 11 + 8, by omega⟩
  rw [plural_key, if_neg (by omega)]

/-! ## Claim theorems -/

/-- C1: `t(k)` returns exactly `s` when the current table maps `k` to
`Text s`; otherwise, when the fallback table maps `k` to `Text s'`, it
returns `s'`; when both text lookups miss it returns the literal
`"Missing translation"`; and a `Variants` (`Map`) value under `k` is
treated as absent for this accessor. -/
theorem t_text_cascade (p : I18nPartial) (k : String) :
    (∀ s, textValueIn p.file_traductions k = some s → p.t k = s) ∧
    (textValueIn p.file_traductions k = none →
      ∀ s, textValueIn p.fallback_traduction k = some s → p.t k = s) ∧
    (textValueIn p.file_traductions k = none →
      textValueIn p.fallback_traduction k = none →
      p.t k = "Missing translation") ∧
    (∀ m, p.file_traductions.lookup k = some (SectionValue.Map m) →
      textValueIn p.file_traductions k = none) := by
  refine ⟨fun s hs => ?_, fun h1 s hs => ?_, fun h1 h2 => ?_, fun m hm => ?_⟩
  · simp [I18nPartial.t, I18nPartial.get_text_value, hs, Option.orElse]
  · simp [I18nPartial.t, I18nPartial.get_text_value, h1, hs, Option.orElse]
  · simp [I18nPartial.t, I18nPartial.get_text_value, h1, h2, Option.orElse]
  · simp [textValueIn, hm]

/-- C1 witness: the cascade at a concrete view. -/
theorem t_text_cascade_witness : textView.t "greet" = "Hello" :=
  (t_text_cascade textView "greet").1 "Hello" (by decide)

/-- C8: `t_with_gender(key, gender)` returns the variant string when the
current table maps `key` to a `Variants` value containing `gender`;
otherwise it repeats the lookup against the fallback table; when both miss
(a `Text` value being a miss) it returns `"Missing gender translation"`. -/
theorem t_with_gender_cascade (p : I18nPartial) (k g : String) :
    (∀ s, variantIn p.file_traductions k g = some s → p.t_with_gender k g = s) ∧
    (variantIn p.file_traductions k g = none →
      ∀ s, variantIn p.fallback_traduction k g = some s → p.t_with_gender k g = s) ∧
    (variantIn p.file_traductions k g = none →
      variantIn p.fallback_traduction k g = none →
      p.t_with_gender k g = "Missing gender translation") ∧
    (∀ s, p.file_traductions.lookup k = some (SectionValue.Text s) →
      variantIn p.file_traductions k g = none) := by
  refine ⟨fun s hs => ?_, fun h1 s hs => ?_, fun h1 h2 => ?_, fun s hs => ?_⟩
  · simp [I18nPartial.t_with_gender, I18nPartial.get_nested_value, hs, Option.orElse]
  · simp [I18nPartial.t_with_gender, I18nPartial.get_nested_value, h1, hs, Option.orElse]
  · simp [I18nPartial.t_with_gender, I18nPartial.get_nested_value, h1, h2, Option.orElse]
  · simp [variantIn, hs]

/-- C8 witness: the gender lookup at a concrete view. -/
theorem t_with_gender_cascade_witness : genderView.t_with_gender "title" "female" = "Mme" :=
  (t_with_gender_cascade genderView "title" "female").1 "Mme" (by decide)

/-- C9: opening a namespace view performs two independent lookups; each
absent side is independently replaced by the synthetic table
`error_map = [("error", Text "Translation not found")]`, and when the
namespace is missing from both languages both sides are that table. -/
theorem translation_independent_fallback (i : I18n) (f : String) :
    ((i.translations.langs.lookup i.current_lang).bind (fun lang => lang.lookup f) = none →
      (i.translation f).file_traductions = error_map) ∧
    (∀ m, (i.translations.langs.lookup i.current_lang).bind (fun lang => lang.lookup f) = some m →
      (i.translation f).file_traductions = m) ∧
    ((i.translations.langs.lookup i.fallback_lang).bind (fun lang => lang.lookup f) = none →
      (i.translation f).fallback_traduction = error_map) ∧
    (∀ m, (i.translations.langs.lookup i.fallback_lang).bind (fun lang => lang.lookup f) = some m →
      (i.translation f).fallback_traduction = m) ∧
    ((i.translations.langs.lookup i.current_lang).bind (fun lang => lang.lookup f) = none →
      (i.translations.langs.lookup i.fallback_lang).bind (fun lang => lang.lookup f) = none →
      (i.translation f).file_traductions = error_map ∧
        (i.translation f).fallback_traduction = error_map) := by
  refine ⟨fun h => ?_, fun m hm => ?_, fun h => ?_, fun m hm => ?_, fun h1 h2 => ⟨?_, ?_⟩⟩ <;>
    simp [I18n.translation, *]

/-- C9 witness: `fr.ui` is absent so the current side degenerates to the
synthetic error table while the fallback side keeps `en.ui`. -/
theorem translation_independent_fallback_witness :
    (demoI18n.translation "ui").file_traductions = error_map ∧
      (demoI18n.translation "ui").fallback_traduction = enUi :=
  ⟨(translation_independent_fallback demoI18n "ui").1 (by decide),
   (translation_independent_fallback demoI18n "ui").2.2.2.1 enUi (by decide)⟩

/-- C7: `set_lang` validates the code against the available-languages list:
an unknown code is a no-op (the whole state, hence `get_lang`, is
unchanged); a known code replaces only the `current_lang` field. -/
theorem set_lang_validation (i : I18n) (code : String) :
    (code ∉ i.locale_folders_list → i.set_lang code = i) ∧
    (code ∉ i.locale_folders_list → (i.set_lang code).get_lang = i.get_lang) ∧
    (code ∈ i.locale_folders_list →
      i.set_lang code = { i with current_lang := code }) := by
  refine ⟨fun h => ?_, fun h => ?_, fun h => ?_⟩
  · simp [I18n.set_lang, h]
  · simp [I18n.set_lang, I18n.get_lang, h]
  · simp [I18n.set_lang, h]

/-- C7 witness: switching to the unknown code `"de"` changes nothing. -/
theorem set_lang_validation_witness :
    demoI18n.set_lang "de" = demoI18n ∧
      (demoI18n.set_lang "de").get_lang = demoI18n.get_lang ∧
      demoI18n.set_lang "en" = { demoI18n with current_lang := "en" } :=
  ⟨(set_lang_validation demoI18n "de").1 (by decide),
   (set_lang_validation demoI18n "de").2.1 (by decide),
   (set_lang_validation demoI18n "en").2.2 (by decide)⟩

/-- C2: `t_with_plural` is a deterministic ordered cascade — exact count,
then category key, then `one`/`other`, then `"many"`, first match winning —
and each step's `get_nested_value` consults the current table before the
fallback table.  In particular an exact-count hit (such as `"5"` at count 5)
is returned (substituted) no matter what category keys the variants hold. -/
theorem t_with_plural_exact_first (p : I18nPartial) (k : String) (c : Nat) :
    (∀ tpl, p.get_nested_value k (Nat.repr c) = some tpl →
      p.t_with_plural k c = p.replace_placeholders tpl [Nat.repr c]) ∧
    (p.get_nested_value k (Nat.repr c) = none →
      ∀ tpl, p.get_nested_value k (plural_key c) = some tpl →
        p.t_with_plural k c = p.replace_placeholders tpl [Nat.repr c]) ∧
    (p.get_nested_value k (Nat.repr c) = none →
      p.get_nested_value k (plural_key c) = none →
      ∀ tpl, p.get_nested_value k (if c = 1 then "one" else "other") = some tpl →
        p.t_with_plural k c = p.replace_placeholders tpl [Nat.repr c]) ∧
    (p.get_nested_value k (Nat.repr c) = none →
      p.get_nested_value k (plural_key c) = none →
      p.get_nested_value k (if c = 1 then "one" else "other") = none →
      ∀ tpl, p.get_nested_value k "many" = some tpl →
        p.t_with_plural k c = p.replace_placeholders tpl [Nat.repr c]) ∧
    (p.get_nested_value k (Nat.repr c) = none →
      p.get_nested_value k (plural_key c) = none →
      p.get_nested_value k (if c = 1 then "one" else "other") = none →
      p.get_nested_value k "many" = none →
      p.t_with_plural k c = "Missing plural translation") ∧
    (∀ nk v, variantIn p.file_traductions k nk = some v →
      p.get_nested_value k nk = some v) ∧
    (∀ nk, variantIn p.file_traductions k nk = none →
      p.get_nested_value k nk = variantIn p.fallback_traduction k nk) := by
  refine ⟨fun tpl h1 => ?_, fun h1 tpl h2 => ?_, fun h1 h2 tpl h3 => ?_,
    fun h1 h2 h3 tpl h4 => ?_, fun h1 h2 h3 h4 => ?_, fun nk v hv => ?_, fun nk hv => ?_⟩
  · simp [I18nPartial.t_with_plural, h1]
  · simp [I18nPartial.t_with_plural, h1, h2]
  · simp [I18nPartial.t_with_plural, h1, h2, h3]
  · simp [I18nPartial.t_with_plural, h1, h2, h3, h4]
  · simp [I18nPartial.t_with_plural, h1, h2, h3, h4]
  · simp [I18nPartial.get_nested_value, hv, Option.orElse]
  · simp [I18nPartial.get_nested_value, hv, Option.orElse]

/-- C2 witness: with variants holding both `"5"` and `"many"`, count 5
resolves to the exact-count variant. -/
theorem t_with_plural_exact_first_witness :
    pluralView.t_with_plural "apples" 5 =
      pluralView.replace_placeholders "cinq pommes" ["5"] :=
  (t_with_plural_exact_first pluralView "apples" 5).1 "cinq pommes" (by decide)

/-- C5: when the exact-count step misses, the category step uses the fixed
mapping `0 → "zero"`, `1 → "one"`, `2 → "two"`, `3..=10 → "few"`,
`11.. → "many"` to select the variant. -/
theorem plural_category_boundaries (p : I18nPartial) (k : String) (c : Nat) (tpl : String)
    (hexact : p.get_nested_value k (Nat.repr c) = none) :
    (c = 0 → p.get_nested_value k "zero" = some tpl →
      p.t_with_plural k c = p.replace_placeholders tpl [Nat.repr c]) ∧
    (c = 1 → p.get_nested_value k "one" = some tpl →
      p.t_with_plural k c = p.replace_placeholders tpl [Nat.repr c]) ∧
    (c = 2 → p.get_nested_value k "two" = some tpl →
      p.t_with_plural k c = p.replace_placeholders tpl [Nat.repr c]) ∧
    (3 ≤ c → c ≤ 10 → p.get_nested_value k "few" = some tpl →
      p.t_with_plural k c = p.replace_placeholders tpl [Nat.repr c]) ∧
    (11 ≤ c → p.get_nested_value k "many" = some tpl →
      p.t_with_plural k c = p.replace_placeholders tpl [Nat.repr c]) := by
  refine ⟨?_, ?_, ?_, ?_, ?_⟩
  · rintro rfl hcat
    simp only [I18nPartial.t_with_plural, hexact]
    simp [plural_key, hcat]
  · rintro rfl hcat
    simp only [I18nPartial.t_with_plural, hexact]
    simp [plural_key, hcat]
  · rintro rfl hcat
    simp only [I18nPartial.t_with_plural, hexact]
    simp [plural_key, hcat]
  · intro h3 h10 hcat
    simp only [I18nPartial.t_with_plural, hexact]
    simp [plural_key_few h3 h10, hcat]
  · intro h11 hcat
    simp only [I18nPartial.t_with_plural, hexact]
    simp [plural_key_many h11, hcat]

/-- C5 witness: count 7 with only a `"few"` category variant. -/
theorem plural_category_boundaries_witness :
    fewView.t_with_plural "items" 7 = fewView.replace_placeholders "quelques" ["7"] :=
  (plural_category_boundaries fewView "items" 7 "quelques" (by decide)).2.2.2.1
    (by decide) (by decide) (by decide)

/-- C6: whenever any cascade step can match, `t_with_plural` returns one of
the step lookups' templates passed through placeholder substitution with
the single positional argument `count` (the caller supplies no argument
list to this accessor). -/
theorem plural_subst_with_count (p : I18nPartial) (k : String) (c : Nat)
    (h : p.get_nested_value k (Nat.repr c) ≠ none ∨
         p.get_nested_value k (plural_key c) ≠ none ∨
         p.get_nested_value k (if c = 1 then "one" else "other") ≠ none ∨
         p.get_nested_value k "many" ≠ none) :
    ∃ tpl, (p.get_nested_value k (Nat.repr c) = some tpl ∨
            p.get_nested_value k (plural_key c) = some tpl ∨
            p.get_nested_value k (if c = 1 then "one" else "other") = some tpl ∨
            p.get_nested_value k "many" = some tpl) ∧
      p.t_with_plural k c = p.replace_placeholders tpl [Nat.repr c] := by
  cases h1 : p.get_nested_value k (Nat.repr c) with
  | some tpl => exact ⟨tpl, Or.inl rfl, by simp [I18nPartial.t_with_plural, h1]⟩
  | none =>
    cases h2 : p.get_nested_value k (plural_key c) with
    | some tpl =>
      exact ⟨tpl, Or.inr (Or.inl rfl), by simp [I18nPartial.t_with_plural, h1, h2]⟩
    | none =>
      cases h3 : p.get_nested_value k (if c = 1 then "one" else "other") with
      | some tpl =>
        exact ⟨tpl, Or.inr (Or.inr (Or.inl rfl)),
          by simp [I18nPartial.t_with_plural, h1, h2, h3]⟩
      | none =>
        cases h4 : p.get_nested_value k "many" with
        | some tpl =>
          exact ⟨tpl, Or.inr (Or.inr (Or.inr rfl)),
            by simp [I18nPartial.t_with_plural, h1, h2, h3, h4]⟩
        | none =>
          rcases h with h | h | h | h
          exacts [absurd h1 h, absurd h2 h, absurd h3 h, absurd h4 h]

/-- C6 witness: the category step matches at count 7 and the result is the
variant substituted with the numeral. -/
theorem plural_subst_with_count_witness :
    ∃ tpl, (fewView.get_nested_value "items" (Nat.repr 7) = some tpl ∨
            fewView.get_nested_value "items" (plural_key 7) = some tpl ∨
            fewView.get_nested_value "items" (if 7 = 1 then "one" else "other") = some tpl ∨
            fewView.get_nested_value "items" "many" = some tpl) ∧
      fewView.t_with_plural "items" 7 = fewView.replace_placeholders tpl [Nat.repr 7] :=
  plural_subst_with_count fewView "items" 7 (by decide)
/-- C3 counterexample: template `{{a}} and {{b}}` (two placeholders) with
three arguments gives `"x and yz"` — the third argument is appended, not
ignored — refuting the claim's `"x and y"`. -/
theorem replace_placeholders_extra_cex :
    emptyView.replace_placeholders "\x7b\x7ba\x7d\x7d and \x7b\x7bb\x7d\x7d"
      ["x", "y", "z"] ≠ "x and y" := by
  decide

/-- C3 (amended): substitution is purely positional — the n-th argument
fills the n-th gap, with fewer arguments the trailing placeholders are
dropped, and arguments beyond the number of split segments are ignored,
but the first argument past the last gap is appended after the final
literal segment: the three-argument example yields `"x and yz"`. -/
theorem replace_placeholders_positional (p : I18nPartial) (template : String)
    (args : List String) :
    (emptyView.replace_placeholders "\x7b\x7ba\x7d\x7d and \x7b\x7bb\x7d\x7d"
      ["x", "y"] = "x and y") ∧
    (emptyView.replace_placeholders "\x7b\x7ba\x7d\x7d and \x7b\x7bb\x7d\x7d"
      ["x"] = "x and ") ∧
    (emptyView.replace_placeholders "\x7b\x7ba\x7d\x7d and \x7b\x7bb\x7d\x7d"
      ["x", "y", "z"] = "x and yz") ∧
    (p.replace_placeholders template [] = String.join (argSplit template)) ∧
    (p.replace_placeholders template args =
      p.replace_placeholders template (args.take (argSplit template).length)) := by
  refine ⟨by decide, by decide, by decide, ?_, ?_⟩
  · exact joinParts_nil_eq (argSplit template)
  · exact joinParts_take_eq (argSplit template) args

/-- C4 counterexample: in the end-to-end scenario `t_with_plural("items", 1)`
returns `"One item1"` (the count is appended to the placeholder-free
variant), not `"One item"`. -/
theorem end_to_end_plural_one_cex :
    (demoI18n.translation "ui").t_with_plural "items" 1 ≠ "One item" := by
  decide

/-- C4 (amended): in the end-to-end scenario, `t("greeting")` returns the
fallback template, `t_with_arg("greeting", ["Bob"])` returns "Hello Bob",
`t_with_plural("items", 7)` returns "7 items", but `t_with_plural("items", 1)`
returns "One item1" — the numeral is appended because the `"one"` variant
has no placeholder. -/
theorem end_to_end_scenario :
    (demoI18n.translation "ui").t "greeting" = "Hello \x7b\x7bname\x7d\x7d" ∧
    (demoI18n.translation "ui").t_with_arg "greeting" ["Bob"] = "Hello Bob" ∧
    (demoI18n.translation "ui").t_with_plural "items" 1 = "One item1" ∧
    (demoI18n.translation "ui").t_with_plural "items" 7 = "7 items" :=
  ⟨by decide, by decide, by decide, by decide⟩

/-- C10: with at least as many arguments as split segments (one more than
the placeholder count), the result is the substitution of the first
(segments − 1) arguments with the next argument appended after the final
literal segment, later arguments being ignored; in particular a template
with no placeholder and at least one argument yields the template with the
first argument appended. -/
theorem replace_placeholders_append_extra (p : I18nPartial) (template : String)
    (args : List String) :
    ((argSplit template).length ≤ args.length →
      p.replace_placeholders template args =
        p.replace_placeholders template (args.take ((argSplit template).length - 1)) ++
          args.getD ((argSplit template).length - 1) "") ∧
    ((argSplit template).length = 1 → 1 ≤ args.length →
      p.replace_placeholders template args = template ++ args.getD 0 "") := by
  refine ⟨fun h => ?_, fun h1 h2 => ?_⟩
  · exact joinParts_extra_arg (argSplit template) args (argSplit_ne_nil template) h
  · obtain ⟨s, hs⟩ : ∃ s, argSplit template = [s] := by
      cases hsp : argSplit template with
      | nil => exact absurd hsp (argSplit_ne_nil template)
      | cons x xs =>
        cases xs with
        | nil => exact ⟨x, rfl⟩
        | cons y ys => rw [hsp] at h1; simp at h1
    have hst : s = template := argSplit_singleton template s hs
    subst hst
    cases args with
    | nil => simp at h2
    | cons a rest =>
      show joinParts (argSplit s) (a :: rest) = s ++ (a :: rest).getD 0 ""
      rw [hs]
      show s ++ a ++ "" = s ++ a
      rw [String.append_empty]

/-- C10 witness: a template with no placeholders and one argument. -/
theorem replace_placeholders_append_extra_witness :
    emptyView.replace_placeholders "One item" ["1"] = "One item" ++ "1" :=
  (replace_placeholders_append_extra emptyView "One item" ["1"]).2 (by decide) (by decide)

end BevyIntl
